import Mathlib

set_option autoImplicit false

/-
Verification development for the mcpenetes configuration translator
(internal/translator/translator.go).

Modelling conventions:
- Go JSON values (the `map[string]interface{}` trees produced by
  `json.Unmarshal`) are embedded as the inductive `JVal`.  A Go map is an
  unordered finite map; we represent it as an association list whose order
  is irrelevant to the Go semantics (Go's `json.MarshalIndent` always emits
  keys in sorted order, so the written bytes are a pure function of the
  map contents).  Map assignment `m[k] = v` is `setKey`, the type-asserted
  read `m[k].(map[string]interface{})` is `lookupKey` followed by `asObj`.
- File-system interaction is factored out: the functions below take the
  outcome of the reads (`existing`, `FileState`) as a parameter and return
  the value that would be written (`ApplyOutput`, `PruneResult`) instead of
  performing the write.
- Go `strings.Split`, `strings.TrimPrefix`, `strings.Contains` are given
  executable models on character lists (`goSplitChar`, `goTrimPfx`,
  `goContains`) because the corresponding Lean `String` bundled functions
  do not reduce in the kernel.
-/

/-- A JSON value tree, as produced by `json.Unmarshal` into
`map[string]interface{}`.  Objects are association lists standing for Go's
unordered maps. -/
inductive JVal where
  | str (s : String)
  | jbool (b : Bool)
  | num (n : Int)
  | arr (elems : List JVal)
  | obj (entries : List (String × JVal))

/-- The Go type assertion `v.(map[string]interface{})`: the entry list when
the value is an object, `none` otherwise. -/
def JVal.asObj : JVal → Option (List (String × JVal))
  | .obj entries => some entries
  | _ => none

/-- Reading a key of a Go map: first matching entry of the association list. -/
def lookupKey {α : Type} (k : String) : List (String × α) → Option α
  | [] => none
  | (k2, v) :: es => if k2 = k then some v else lookupKey k es

/-- Go map assignment `m[k] = v`: replace the entry for `k`, or add one. -/
def setKey {α : Type} (k : String) (v : α) : List (String × α) → List (String × α)
  | [] => [(k, v)]
  | (k2, v2) :: es => if k2 = k then (k, v) :: es else (k2, v2) :: setKey k v es

/-- Model of Go `strings.Contains s sub`: `sub` occurs as a contiguous
substring of `s` (note: this is case-sensitive, exactly as in Go). -/
def goContains (s sub : String) : Bool :=
  decide (sub.toList <:+: s.toList)

/-- Model of Go `strings.Split s sep` for a one-character separator `sep`,
on character lists.  Always returns at least one (possibly empty) part. -/
def goSplitChar (sep : Char) : List Char → List (List Char)
  | [] => [[]]
  | c :: cs =>
    match goSplitChar sep cs with
    | [] => [[c]]
    | t :: ts => if c = sep then [] :: t :: ts else (c :: t) :: ts

/-- Helper for `goTrimPfx`: the remainder of `s` after the literal pattern
`p`, or `none` when `p` is not a leading pattern of `s`. -/
def stripPfxL : List Char → List Char → Option (List Char)
  | [], s => some s
  | _ :: _, [] => none
  | p :: ps, c :: cs => if c = p then stripPfxL ps cs else none

/-- Model of Go `strings.TrimPrefix s p`. -/
def goTrimPfx (s p : String) : String :=
  match stripPfxL p.toList s.toList with
  | some rest => String.mk rest
  | none => s

/-- ASCII lower-casing of one character (used only by the spec-modelled
case-insensitive selector `selectVariantSpec`). -/
def lowerChar (c : Char) : Char :=
  if 'A' ≤ c ∧ c ≤ 'Z' then Char.ofNat (c.toNat + 32) else c

/-- ASCII lower-casing of a string (used only by `selectVariantSpec`). -/
def lowerStr (s : String) : String :=
  String.mk (s.toList.map lowerChar)

/-- One MCP server record (config.MCPServer).  The Go `Env` field is a
`map[string]string`; it is represented by an association list. -/
structure MCPServer where
  command : String
  args : List String
  url : String
  env : List (String × String)
  disabled : Bool
  autoApprove : List String

/-- The canonical server inventory (config.MCPConfig): identifier → record. -/
structure MCPConfig where
  mcpServers : List (String × MCPServer)

/-- Space-separated concatenation, as used by Go's `fmt` verbs for slices
and (sorted) maps. -/
def joinSpace : List String → String
  | [] => ""
  | [x] => x
  | x :: xs => x ++ " " ++ joinSpace xs

/-- Model of Go `fmt.Sprintf("%v", args)` for a `[]string`. -/
def renderArgs (args : List String) : String :=
  "[" ++ joinSpace args ++ "]"

/-- Lexicographic order on character lists, an executable model of Go's
string ordering used when `fmt` sorts map keys. -/
def charListLt : List Char → List Char → Bool
  | [], [] => false
  | [], _ :: _ => true
  | _ :: _, [] => false
  | a :: as, b :: bs => if a < b then true else if b < a then false else charListLt as bs

/-- String ordering on the underlying character lists. -/
def strLt (a b : String) : Bool :=
  charListLt a.toList b.toList

/-- Sorted insertion for environment pairs (Go's `fmt` prints maps in
sorted key order). -/
def insertEnvPair (p : String × String) : List (String × String) → List (String × String)
  | [] => [p]
  | q :: qs => if strLt p.1 q.1 then p :: q :: qs else q :: insertEnvPair p qs

/-- Key-sorting of environment pairs, for `renderEnv`. -/
def sortEnvPairs : List (String × String) → List (String × String)
  | [] => []
  | p :: ps => insertEnvPair p (sortEnvPairs ps)

/-- Model of Go `fmt.Sprintf("%v", env)` for a `map[string]string`: keys in
sorted order, `k:v` pairs separated by spaces. -/
def renderEnv (env : List (String × String)) : String :=
  "map[" ++ joinSpace ((sortEnvPairs env).map (fun p => p.1 ++ ":" ++ p.2)) ++ "]"

/-- The four-field comparison used by `TranslateAndApply` to find the stored
identifier of a record: command and url compared directly, args and env
compared through their `%v` renderings. -/
def serverMatches (a b : MCPServer) : Bool :=
  a.command == b.command && a.url == b.url &&
    renderArgs a.args == renderArgs b.args && renderEnv a.env == renderEnv b.env

/-- First part of `strings.Split(command, " ")` (translator.go line 121). -/
def firstSpaceToken (s : String) : String :=
  match goSplitChar ' ' s.toList with
  | t :: _ => String.mk t
  | [] => ""

/-- Scheme stripping of translator.go line 124: `https://` first, then
`http://`. -/
def stripScheme (url : String) : String :=
  goTrimPfx (goTrimPfx url "https://") "http://"

/-- First part of `strings.Split(strippedURL, "/")`; the `[]` branch mirrors
the source's dead `len(parts) == 0` fallback to `"mcp-server"`. -/
def urlHostToken (url : String) : String :=
  match goSplitChar '/' (stripScheme url).toList with
  | t :: _ => String.mk t
  | [] => "mcp-server"

/-- Identifier resolution of `TranslateAndApply` (translator.go lines
105-133): the stored identifier on a four-field match, else the first
space-separated part of `command`, else the first `/`-separated part of the
scheme-stripped `url`, else the literal `"mcp-server"`.  The Go loop is a
`range` over the map `t.MCPConfig.MCPServers` with a `break` at the first
match, and Go randomizes map iteration order per `range`; `scan` is the
entry sequence produced by one such iteration (always some permutation of
the canonical entries), so which identifier wins when several entries hold
field-identical records depends on the order Go happens to pick. -/
def resolveServerIDIn (scan : List (String × MCPServer)) (serverConf : MCPServer) : String :=
  match scan.find? (fun kv => serverMatches kv.2 serverConf) with
  | some kv => kv.1
  | none =>
    if serverConf.command ≠ "" then firstSpaceToken serverConf.command
    else if serverConf.url ≠ "" then urlHostToken serverConf.url
    else "mcp-server"

/-- The adapter variants of `TranslateAndApply` (translator.go lines
153-411): three named client families and the extension-dispatched generic
fallback. -/
inductive Variant where
  | claudeDesktop
  | windsurfCursor
  | vscode
  | genericJson
  | genericYaml
  | genericToml
deriving DecidableEq

/-- Adapter selection, transcribing the guard order of the `switch` in
`TranslateAndApply`: `claude-desktop`, then `windsurf`/`cursor`, then
`vscode`, then the generic fallback dispatched on the lower-cased file
extension, with an error for unsupported extensions. -/
def selectVariant (clientName fmtExt : String) : Except String Variant :=
  if goContains clientName "claude-desktop" then .ok .claudeDesktop
  else if goContains clientName "windsurf" || goContains clientName "cursor" then .ok .windsurfCursor
  else if goContains clientName "vscode" then .ok .vscode
  else if fmtExt = ".json" then .ok .genericJson
  else if fmtExt = ".yaml" || fmtExt = ".yml" then .ok .genericYaml
  else if fmtExt = ".toml" then .ok .genericToml
  else .error "unsupported config format"

/-- Per-server fragment of the claude-desktop branch (translator.go lines
173-201): conditional command/args/env/url/disabled, `autoApprove` always
present (empty array when unset). -/
def claudeEntry (s : MCPServer) : List (String × JVal) :=
  (if s.command ≠ "" then [("command", JVal.str s.command)] else []) ++
  (if s.args ≠ [] then [("args", JVal.arr (s.args.map JVal.str))] else []) ++
  (if s.env ≠ [] then [("env", JVal.obj (s.env.map (fun p => (p.1, JVal.str p.2))))] else []) ++
  (if s.url ≠ "" then [("url", JVal.str s.url)] else []) ++
  (if s.disabled then [("disabled", JVal.jbool s.disabled)] else []) ++
  (if s.autoApprove ≠ [] then [("autoApprove", JVal.arr (s.autoApprove.map JVal.str))]
   else [("autoApprove", JVal.arr [])])

/-- Per-server fragment of the windsurf/cursor branch (translator.go lines
235-251): conditional command/args/env/url only; `disabled` and
`autoApprove` are never written. -/
def windsurfEntry (s : MCPServer) : List (String × JVal) :=
  (if s.command ≠ "" then [("command", JVal.str s.command)] else []) ++
  (if s.args ≠ [] then [("args", JVal.arr (s.args.map JVal.str))] else []) ++
  (if s.env ≠ [] then [("env", JVal.obj (s.env.map (fun p => (p.1, JVal.str p.2))))] else []) ++
  (if s.url ≠ "" then [("url", JVal.str s.url)] else [])

/-- Per-server fragment of the vscode branch (translator.go lines 296-316):
conditional command/args/url, `env` always present (empty object when
unset); `disabled` and `autoApprove` are never written. -/
def vscodeEntry (s : MCPServer) : List (String × JVal) :=
  (if s.command ≠ "" then [("command", JVal.str s.command)] else []) ++
  (if s.args ≠ [] then [("args", JVal.arr (s.args.map JVal.str))] else []) ++
  (if s.env ≠ [] then [("env", JVal.obj (s.env.map (fun p => (p.1, JVal.str p.2))))]
   else [("env", JVal.obj [])]) ++
  (if s.url ≠ "" then [("url", JVal.str s.url)] else [])

/-- Per-server fragment of the generic `.json` fallback (translator.go lines
350-377), identical in structure to the claude-desktop fragment. -/
def genericJsonEntry (s : MCPServer) : List (String × JVal) :=
  (if s.command ≠ "" then [("command", JVal.str s.command)] else []) ++
  (if s.args ≠ [] then [("args", JVal.arr (s.args.map JVal.str))] else []) ++
  (if s.env ≠ [] then [("env", JVal.obj (s.env.map (fun p => (p.1, JVal.str p.2))))] else []) ++
  (if s.url ≠ "" then [("url", JVal.str s.url)] else []) ++
  (if s.disabled then [("disabled", JVal.jbool s.disabled)] else []) ++
  (if s.autoApprove ≠ [] then [("autoApprove", JVal.arr (s.autoApprove.map JVal.str))]
   else [("autoApprove", JVal.arr [])])

/-- What `TranslateAndApply` writes: a JSON document (marshalled with
`json.MarshalIndent`, keys sorted) for the three named variants and the
generic `.json` fallback, or a single-identifier record map marshalled as
YAML or TOML for the non-JSON fallbacks. -/
inductive ApplyOutput where
  | jsonDoc (doc : List (String × JVal))
  | yamlDoc (entries : List (String × MCPServer))
  | tomlDoc (entries : List (String × MCPServer))

/-- The document-level body of `TranslateAndApply` (translator.go lines
97-427), parameterized by the map iteration order `scan` that identifier
resolution happens to see (the canonical config is used for nothing else).
`existing` is the outcome of the merge-base read (lines 139-150): `some m`
exactly when the client file exists, is non-empty, and parses as a JSON
object `m`; otherwise `none` and the branches start from scratch. -/
def translateAndApplyOrd (scan : List (String × MCPServer)) (clientName fmtExt : String)
    (serverConf : MCPServer)
    (existing : Option (List (String × JVal))) : Except String ApplyOutput :=
  let serverID := resolveServerIDIn scan serverConf
  match selectVariant clientName fmtExt with
  | .error e => .error e
  | .ok .claudeDesktop =>
    let claudeConfig :=
      match existing with
      | some c => c
      | none => setKey "mcpServers" (JVal.obj []) []
    let mcpServers :=
      match lookupKey "mcpServers" claudeConfig with
      | some (JVal.obj m) => m
      | _ => []
    .ok (.jsonDoc (setKey "mcpServers"
      (JVal.obj (setKey serverID (JVal.obj (claudeEntry serverConf)) mcpServers)) claudeConfig))
  | .ok .windsurfCursor =>
    let base :=
      match existing with
      | some c => c
      | none => []
    let windsurfConfig :=
      if (lookupKey "mcpServers" base).isNone then setKey "mcpServers" (JVal.obj []) base else base
    let mcpServers :=
      match lookupKey "mcpServers" windsurfConfig with
      | some (JVal.obj m) => m
      | _ => []
    .ok (.jsonDoc (setKey "mcpServers"
      (JVal.obj (setKey serverID (JVal.obj (windsurfEntry serverConf)) mcpServers)) windsurfConfig))
  | .ok .vscode =>
    let base :=
      match existing with
      | some c => c
      | none => []
    let mcpObj :=
      match lookupKey "mcp" base with
      | some (JVal.obj m) => m
      | _ => setKey "inputs" (JVal.arr []) []
    let mcpServers :=
      match lookupKey "servers" mcpObj with
      | some (JVal.obj m) => m
      | _ => []
    .ok (.jsonDoc (setKey "mcp"
      (JVal.obj (setKey "servers"
        (JVal.obj (setKey serverID (JVal.obj (vscodeEntry serverConf)) mcpServers)) mcpObj)) base))
  | .ok .genericJson =>
    let genericConfig :=
      match existing with
      | some c => c
      | none => []
    let mcpServers :=
      match lookupKey "mcpServers" genericConfig with
      | some (JVal.obj m) => m
      | _ => []
    .ok (.jsonDoc (setKey "mcpServers"
      (JVal.obj (setKey serverID (JVal.obj (genericJsonEntry serverConf)) mcpServers)) genericConfig))
  | .ok .genericYaml => .ok (.yamlDoc [(serverID, serverConf)])
  | .ok .genericToml => .ok (.tomlDoc [(serverID, serverConf)])

/-- `TranslateAndApply` at the canonical entry order (see
`resolveServerIDIn` for when the order matters). -/
def translateAndApply (clientName fmtExt : String) (cfg : MCPConfig) (serverConf : MCPServer)
    (existing : Option (List (String × JVal))) : Except String ApplyOutput :=
  translateAndApplyOrd cfg.mcpServers clientName fmtExt serverConf existing

/-- Reading the written output back as the merge base of a following
`TranslateAndApply` call: a written JSON document is non-empty and parses
back to the same map (`json.MarshalIndent` then `json.Unmarshal`); the
YAML/TOML fallback outputs are not JSON, so the JSON merge-base parse fails
and the next call starts from scratch (`none`). -/
def reparse : ApplyOutput → Option (List (String × JVal))
  | .jsonDoc d => some d
  | .yamlDoc _ => none
  | .tomlDoc _ => none

/-- Outcome of the client-file read at the start of `RemoveClientServers`
(translator.go lines 436-454): the file is absent, exists but is empty, or
has non-empty content whose JSON parse into a `map[string]interface{}`
yields `parsed` (`none` when the content does not parse as a JSON object). -/
inductive FileState where
  | absent
  | emptyFile
  | content (parsed : Option (List (String × JVal)))

/-- Outcome of `RemoveClientServers`: success without touching the file,
success with a warning and no write (YAML/TOML gap), a rewrite of the file
with the given document, or an error. -/
inductive PruneResult where
  | noop
  | warnNoop
  | wrote (doc : List (String × JVal))
  | errored (msg : String)

/-- Whether a prune outcome writes the client file. -/
def isWrite : PruneResult → Bool
  | .wrote _ => true
  | _ => false

/-- The body of `removeObsoleteServers` (translator.go lines 567-583):
delete every identifier absent from the canonical inventory, and report
whether any deletion happened. -/
def removeObsoleteServers (cfg : MCPConfig) : List (String × JVal) → List (String × JVal) × Bool
  | [] => ([], false)
  | (id, v) :: rest =>
    let r := removeObsoleteServers cfg rest
    if (lookupKey id cfg.mcpServers).isSome then ((id, v) :: r.1, r.2) else (r.1, true)

/-- The flat-map prune block that the claude-desktop, windsurf and
default-JSON branches of `RemoveClientServers` each repeat verbatim
(translator.go lines 468-485, 487-504 and 532-550): look up the top-level
`mcpServers` object, drop obsolete identifiers, and rewrite the document
only when something was deleted. -/
def pruneFlat (cfg : MCPConfig) (clientConfig : List (String × JVal)) : PruneResult :=
  match lookupKey "mcpServers" clientConfig with
  | some (JVal.obj mcpServers) =>
    let r := removeObsoleteServers cfg mcpServers
    if r.2 then .wrote (setKey "mcpServers" (JVal.obj r.1) clientConfig) else .noop
  | _ => .noop

/-- The nested prune block of the `vscode`/`cursor` branch of
`RemoveClientServers` (translator.go lines 506-530): the server map lives at
`mcp.servers`. -/
def pruneNested (cfg : MCPConfig) (clientConfig : List (String × JVal)) : PruneResult :=
  match lookupKey "mcp" clientConfig with
  | some (JVal.obj mcpObj) =>
    match lookupKey "servers" mcpObj with
    | some (JVal.obj servers) =>
      let r := removeObsoleteServers cfg servers
      if r.2 then
        .wrote (setKey "mcp" (JVal.obj (setKey "servers" (JVal.obj r.1) mcpObj)) clientConfig)
      else .noop
    | _ => .noop
  | _ => .noop

/-- The document-level body of `RemoveClientServers` (translator.go lines
430-563), dispatching on the lower-cased extension and then on the client
identity.  Note the identity dispatch differs from `TranslateAndApply`:
here `vscode` OR `cursor` selects the nested `mcp.servers` path, while the
apply side sends `cursor` to the flat top-level `mcpServers`. -/
def removeClientServers (clientName fmtExt : String) (cfg : MCPConfig)
    (file : FileState) : PruneResult :=
  match file with
  | .absent => .noop
  | .emptyFile => .noop
  | .content parsed =>
    if fmtExt = ".json" then
      match parsed with
      | none => .errored "failed to parse client JSON config file"
      | some clientConfig =>
        if goContains clientName "claude-desktop" then pruneFlat cfg clientConfig
        else if goContains clientName "windsurf" then pruneFlat cfg clientConfig
        else if goContains clientName "vscode" || goContains clientName "cursor" then
          pruneNested cfg clientConfig
        else pruneFlat cfg clientConfig
    else if fmtExt = ".yaml" || fmtExt = ".yml" || fmtExt = ".toml" then .warnNoop
    else .errored "unsupported config format"

/-- Nested key path navigation through JSON objects (the way both engines
locate their server-map node). -/
def getPath : List String → List (String × JVal) → Option (List (String × JVal))
  | [], doc => some doc
  | k :: rest, doc =>
    match lookupKey k doc with
    | some (JVal.obj sub) => getPath rest sub
    | _ => none

/-- The nested path at which the apply side upserts the translated fragment,
per selected variant (`none` for the non-JSON fallbacks and for unsupported
extensions, which have no JSON server-map node). -/
def applyServerMapPath (clientName fmtExt : String) : Option (List String) :=
  match selectVariant clientName fmtExt with
  | .ok .claudeDesktop => some ["mcpServers"]
  | .ok .windsurfCursor => some ["mcpServers"]
  | .ok .vscode => some ["mcp", "servers"]
  | .ok .genericJson => some ["mcpServers"]
  | .ok .genericYaml => none
  | .ok .genericToml => none
  | .error _ => none

/-- The nested path at which the prune side looks for the server-map node of
a `.json` client file, transcribing the identity dispatch of
`RemoveClientServers`. -/
def pruneServerMapPath (clientName : String) : List String :=
  if goContains clientName "claude-desktop" then ["mcpServers"]
  else if goContains clientName "windsurf" then ["mcpServers"]
  else if goContains clientName "vscode" || goContains clientName "cursor" then ["mcp", "servers"]
  else ["mcpServers"]

/-- The single top-level document key owned by each JSON-producing variant:
`mcpServers` for claude-desktop, windsurf/cursor and the generic JSON
fallback, the `mcp` namespace for vscode (the non-JSON fallbacks own no
JSON node; the value is unused for them). -/
def ownedRootKey : Variant → String
  | .vscode => "mcp"
  | _ => "mcpServers"

/-- File-system operations performed by `BackupClientConfig`, in order. -/
inductive FsOp where
  | mkdirAll (dir : String)
  | createFile (path : String)
  | copyFile (src dst : String)
deriving DecidableEq

/-- The parts of the file system `BackupClientConfig` inspects: which paths
are regular files and which are directories. -/
structure FsState where
  files : List String
  dirs : List String

/-- The body of `BackupClientConfig` (translator.go lines 34-93), with the
path expansion already performed and the timestamp and source extension
passed in.  It returns the ordered list of file-system effects together
with the Go result (backup path, or empty string for the no-op case).
`os.MkdirAll` on the backup root runs before the source file is stat-ed,
so it appears in the effect list of every outcome. -/
def backupClientConfig (backupDir clientName clientConfigPath timestamp origExt : String)
    (fs : FsState) : List FsOp × Except String String :=
  if fs.files.contains clientConfigPath || fs.dirs.contains clientConfigPath then
    if fs.dirs.contains clientConfigPath then
      ([FsOp.mkdirAll backupDir], .error "source config path is a directory, not a file")
    else
      let backupFilePath := backupDir ++ "/" ++ clientName ++ "-" ++ timestamp ++ origExt
      ([FsOp.mkdirAll backupDir, FsOp.createFile backupFilePath,
        FsOp.copyFile clientConfigPath backupFilePath], .ok backupFilePath)
  else ([FsOp.mkdirAll backupDir], .ok "")

/-- Formalization of the spec sentence of section 4.2: variants "selected by
case-insensitive substring match on the client identity string", in the
precedence order claude-desktop, windsurf/cursor, vscode, then the
extension-dispatched generic fallback.  This is the claim side of C4, to be
compared against `selectVariant` from the source (which matches
case-sensitively). -/
def selectVariantSpec (clientName fmtExt : String) : Except String Variant :=
  let n := lowerStr clientName
  if goContains n "claude-desktop" then .ok .claudeDesktop
  else if goContains n "windsurf" || goContains n "cursor" then .ok .windsurfCursor
  else if goContains n "vscode" then .ok .vscode
  else if fmtExt = ".json" then .ok .genericJson
  else if fmtExt = ".yaml" || fmtExt = ".yml" then .ok .genericYaml
  else if fmtExt = ".toml" then .ok .genericToml
  else .error "unsupported config format"

/-- The precedence list of the spec's variant-selection sentence, as an
ordered rule table (first match wins), with case-sensitive matching as the
amended C4 states it. -/
def variantRules : List ((String → Bool) × Variant) :=
  [(fun n => goContains n "claude-desktop", Variant.claudeDesktop),
   (fun n => goContains n "windsurf" || goContains n "cursor", Variant.windsurfCursor),
   (fun n => goContains n "vscode", Variant.vscode)]

/-- Declarative first-match-wins selector over `variantRules`, with the
generic fallback dispatched on the file extension; the amended C4 compares
it with the transcription `selectVariant`. -/
def selectVariantRuleTable (clientName fmtExt : String) : Except String Variant :=
  match variantRules.find? (fun r => r.1 clientName) with
  | some r => .ok r.2
  | none =>
    if fmtExt = ".json" then .ok .genericJson
    else if fmtExt = ".yaml" || fmtExt = ".yml" then .ok .genericYaml
    else if fmtExt = ".toml" then .ok .genericToml
    else .error "unsupported config format"

/-- The mapping emitted when `yaml.Marshal` serializes one `MCPServer`
value (translator.go lines 388-396): the struct carries only `json:` tags,
which yaml.v3 ignores, so every field is emitted under its lower-cased Go
field name with no omitempty semantics — empty and default values
included. -/
def yamlRecordFields (s : MCPServer) : List (String × JVal) :=
  [("command", JVal.str s.command),
   ("args", JVal.arr (s.args.map JVal.str)),
   ("url", JVal.str s.url),
   ("env", JVal.obj (s.env.map (fun p => (p.1, JVal.str p.2)))),
   ("disabled", JVal.jbool s.disabled),
   ("autoapprove", JVal.arr (s.autoApprove.map JVal.str))]

/-- The key/value pairs emitted when the BurntSushi TOML encoder serializes
one `MCPServer` value (translator.go lines 398-407): with no `toml:` tags
the Go field names are used verbatim and zero values are not omitted. -/
def tomlRecordFields (s : MCPServer) : List (String × JVal) :=
  [("Command", JVal.str s.command),
   ("Args", JVal.arr (s.args.map JVal.str)),
   ("URL", JVal.str s.url),
   ("Env", JVal.obj (s.env.map (fun p => (p.1, JVal.str p.2)))),
   ("Disabled", JVal.jbool s.disabled),
   ("AutoApprove", JVal.arr (s.autoApprove.map JVal.str))]

/-- Number of entries in a document's top-level `mcpServers` object (used to
exhibit that two written documents differ). -/
def serverMapSize (doc : List (String × JVal)) : Nat :=
  match lookupKey "mcpServers" doc with
  | some (JVal.obj m) => m.length
  | _ => 0

/-! Helper lemmas about the association-list map operations. -/

theorem lookupKey_setKey_self {α : Type} (k : String) (v : α) (l : List (String × α)) :
    lookupKey k (setKey k v l) = some v := by
  induction l with
  | nil => simp [setKey, lookupKey]
  | cons e es ih =>
    obtain ⟨a, b⟩ := e
    by_cases h : a = k <;> simp [setKey, lookupKey, h, ih]

theorem setKey_setKey_self {α : Type} (k : String) (v : α) (l : List (String × α)) :
    setKey k v (setKey k v l) = setKey k v l := by
  induction l with
  | nil => simp [setKey]
  | cons e es ih =>
    obtain ⟨a, b⟩ := e
    by_cases h : a = k <;> simp [setKey, h, ih]

theorem lookupKey_setKey_ne {α : Type} (k k2 : String) (v : α) (l : List (String × α))
    (h : k ≠ k2) : lookupKey k (setKey k2 v l) = lookupKey k l := by
  have h2 : ¬ (k2 = k) := fun hh => h hh.symm
  induction l with
  | nil => simp [setKey, lookupKey, h2]
  | cons e es ih =>
    obtain ⟨a, b⟩ := e
    by_cases ha : a = k2
    · subst ha
      simp [setKey, lookupKey, h2]
    · simp [setKey, lookupKey, ha, ih]

/-- C10: when the client's configured file does not exist, `BackupClientConfig`
returns the no-op signal (empty backup path, no error) and creates no backup
file, but it still creates the backup root directory, because `os.MkdirAll`
runs before the source-existence check. -/
theorem backup_missing_source_noop_still_mkdirs
    (backupDir clientName clientConfigPath timestamp origExt : String) (fs : FsState)
    (hfile : fs.files.contains clientConfigPath = false)
    (hdir : fs.dirs.contains clientConfigPath = false) :
    backupClientConfig backupDir clientName clientConfigPath timestamp origExt fs
      = ([FsOp.mkdirAll backupDir], Except.ok "") := by
  unfold backupClientConfig
  rw [hfile, hdir]
  simp

/-- Witness for the C10 theorem at a concrete file system without the
client's configuration file. -/
theorem backup_missing_source_noop_still_mkdirs_witness :
    backupClientConfig "/backups" "claude-desktop" "/home/u/cfg.json" "20250101-000000" ".json"
        ⟨["/tmp/other.json"], ["/home/u"]⟩ = ([FsOp.mkdirAll "/backups"], Except.ok "") :=
  backup_missing_source_noop_still_mkdirs "/backups" "claude-desktop" "/home/u/cfg.json"
    "20250101-000000" ".json" ⟨["/tmp/other.json"], ["/home/u"]⟩ rfl rfl

/-- C2 (counterexample): for a `.json` client file that exists, is non-empty
and does not parse as JSON, `RemoveClientServers` returns an error rather
than the warn-and-no-op the claim asserts for every non-parsing file. -/
theorem prune_unparseable_json_errors_counterexample :
    removeClientServers "claude-desktop" ".json" ⟨[]⟩ (FileState.content none)
      = PruneResult.errored "failed to parse client JSON config file" := rfl

/-- C2 (amended): the warn-and-no-op behavior applies to the `.yaml`, `.yml`
and `.toml` extensions (whose prune is unimplemented); a non-empty `.json`
file whose content does not parse as a JSON object makes prune return an
error instead. -/
theorem prune_unparseable_amended (clientName : String) (cfg : MCPConfig)
    (parsed : Option (List (String × JVal))) :
    removeClientServers clientName ".yaml" cfg (FileState.content parsed) = PruneResult.warnNoop
  ∧ removeClientServers clientName ".yml" cfg (FileState.content parsed) = PruneResult.warnNoop
  ∧ removeClientServers clientName ".toml" cfg (FileState.content parsed) = PruneResult.warnNoop
  ∧ removeClientServers clientName ".json" cfg (FileState.content none)
      = PruneResult.errored "failed to parse client JSON config file" :=
  ⟨rfl, rfl, rfl, rfl⟩

theorem lookupKey_append {α : Type} (k : String) (l1 l2 : List (String × α)) :
    lookupKey k (l1 ++ l2)
      = (match lookupKey k l1 with
         | some v => some v
         | none => lookupKey k l2) := by
  induction l1 with
  | nil => simp [lookupKey]
  | cons e es ih =>
    obtain ⟨a, b⟩ := e
    by_cases h : a = k <;> simp [lookupKey, h, ih]

/-- C4 (counterexample): adapter selection in `TranslateAndApply` matches the
client identity case-sensitively, so the identity `"CURSOR"` falls through to
the generic JSON fallback, while the claimed case-insensitive match would
select the windsurf/cursor variant. -/
theorem select_variant_case_counterexample :
    selectVariant "CURSOR" ".json" = Except.ok Variant.genericJson
  ∧ selectVariantSpec "CURSOR" ".json" = Except.ok Variant.windsurfCursor
  ∧ Variant.genericJson ≠ Variant.windsurfCursor :=
  ⟨rfl, rfl, by decide⟩

/-- C4 (amended): the adapter variant is selected by case-sensitive substring
match on the client identity, first match winning in the precedence order
claude-desktop, windsurf/cursor, vscode, then the generic fallback dispatched
on the target file's extension (`.json`, `.yaml`/`.yml`, `.toml`, error
otherwise); this is the rule-table reading of the spec sentence with only
the case-sensitivity changed. -/
theorem select_variant_amended (clientName fmtExt : String) :
    selectVariant clientName fmtExt = selectVariantRuleTable clientName fmtExt := by
  unfold selectVariant selectVariantRuleTable variantRules
  by_cases h1 : goContains clientName "claude-desktop" = true <;>
    by_cases h2 : (goContains clientName "windsurf" || goContains clientName "cursor") = true <;>
      by_cases h3 : goContains clientName "vscode" = true <;>
        simp [List.find?, h1, h2, h3]

/-- C1 (counterexample): for the client identity `"cursor"`, apply upserts the
fragment at the flat top-level `mcpServers` node, but prune looks for the
nested `mcp.servers` node: pruning with an empty canonical inventory leaves
the freshly applied (now obsolete) entry in place, while the same document
under the identity `"windsurf"` is pruned at `mcpServers` as expected. -/
theorem cursor_prune_path_counterexample :
    translateAndApply "cursor" ".json"
        ⟨[("x", { command := "run", args := [], url := "", env := [], disabled := false,
                  autoApprove := [] })]⟩
        { command := "run", args := [], url := "", env := [], disabled := false,
          autoApprove := [] } none
      = Except.ok (ApplyOutput.jsonDoc
          [("mcpServers", JVal.obj [("x", JVal.obj [("command", JVal.str "run")])])])
  ∧ removeClientServers "cursor" ".json" ⟨[]⟩
        (FileState.content (some
          [("mcpServers", JVal.obj [("x", JVal.obj [("command", JVal.str "run")])])]))
      = PruneResult.noop
  ∧ removeClientServers "windsurf" ".json" ⟨[]⟩
        (FileState.content (some
          [("mcpServers", JVal.obj [("x", JVal.obj [("command", JVal.str "run")])])]))
      = PruneResult.wrote [("mcpServers", JVal.obj [])] :=
  ⟨rfl, rfl, rfl⟩

/-- C1 (amended): for `.json` targets, prune locates the server map at the
same path apply uses for every identity that does not contain `"cursor"`, or
that also contains `"claude-desktop"` or `"windsurf"`; for an identity
containing `"cursor"` but neither of the other two, apply upserts at the flat
top-level `mcpServers` while prune targets the nested `mcp.servers`. -/
theorem apply_prune_path_amended (clientName : String) :
    ((goContains clientName "cursor" = false
        ∨ goContains clientName "claude-desktop" = true
        ∨ goContains clientName "windsurf" = true) →
      applyServerMapPath clientName ".json" = some (pruneServerMapPath clientName))
  ∧ (goContains clientName "cursor" = true →
      goContains clientName "claude-desktop" = false →
      goContains clientName "windsurf" = false →
      (applyServerMapPath clientName ".json" = some ["mcpServers"]
        ∧ pruneServerMapPath clientName = ["mcp", "servers"])) := by
  constructor
  · intro h
    unfold applyServerMapPath selectVariant pruneServerMapPath
    rcases h with h | h | h
    · by_cases h1 : goContains clientName "claude-desktop" = true <;>
        by_cases h2 : goContains clientName "windsurf" = true <;>
          by_cases h3 : goContains clientName "vscode" = true <;>
            simp [h, h1, h2, h3]
    · simp [h]
    · by_cases h1 : goContains clientName "claude-desktop" = true <;> simp [h, h1]
  · intro hc h1 h2
    unfold applyServerMapPath selectVariant pruneServerMapPath
    simp [hc, h1, h2]

/-- Witness for the C1 amended theorem at the identities `"windsurf"` and
`"cursor"`. -/
theorem apply_prune_path_amended_witness :
    applyServerMapPath "windsurf" ".json" = some (pruneServerMapPath "windsurf")
  ∧ (applyServerMapPath "cursor" ".json" = some ["mcpServers"]
      ∧ pruneServerMapPath "cursor" = ["mcp", "servers"]) :=
  ⟨(apply_prune_path_amended "windsurf").1 (Or.inr (Or.inr rfl)),
   (apply_prune_path_amended "cursor").2 rfl rfl rfl⟩

theorem lookupKey_guard {α : Type} (k a : String) (c : Prop) [Decidable c] (v : α)
    (rest : List (String × α)) :
    lookupKey k ((if c then [(a, v)] else []) ++ rest)
      = if c then (if a = k then some v else lookupKey k rest) else lookupKey k rest := by
  by_cases hc : c <;> by_cases h : a = k <;> simp [hc, h, lookupKey]

theorem lookupKey_guardD {α : Type} (k a : String) (c : Prop) [Decidable c] (v w : α)
    (rest : List (String × α)) :
    lookupKey k ((if c then [(a, v)] else [(a, w)]) ++ rest)
      = if a = k then some (if c then v else w) else lookupKey k rest := by
  by_cases hc : c <;> by_cases h : a = k <;> simp [hc, h, lookupKey]

theorem lookupKey_guard_nil {α : Type} (k a : String) (c : Prop) [Decidable c] (v : α) :
    lookupKey k (if c then [(a, v)] else [])
      = if c then (if a = k then some v else none) else none := by
  by_cases hc : c <;> by_cases h : a = k <;> simp [hc, h, lookupKey]

theorem lookupKey_guardD_nil {α : Type} (k a : String) (c : Prop) [Decidable c] (v w : α) :
    lookupKey k (if c then [(a, v)] else [(a, w)])
      = if a = k then some (if c then v else w) else none := by
  by_cases hc : c <;> by_cases h : a = k <;> simp [hc, h, lookupKey]

/-- C5 (counterexample): the windsurf/cursor variant omits `disabled` and
`autoApprove` even when they are set, so the claimed presence-iff-non-default
rule (with only the env and autoApprove exceptions) fails: a record with
`disabled = true` and a non-empty `autoApprove` translates, under the
windsurf identity, to a fragment containing neither field. -/
theorem windsurf_fragment_omission_counterexample :
    lookupKey "disabled" (windsurfEntry
      { command := "run", args := [], url := "", env := [], disabled := true,
        autoApprove := ["tool"] }) = none
  ∧ lookupKey "autoApprove" (windsurfEntry
      { command := "run", args := [], url := "", env := [], disabled := true,
        autoApprove := ["tool"] }) = none
  ∧ translateAndApply "windsurf" ".json" ⟨[]⟩
      { command := "run", args := [], url := "", env := [], disabled := true,
        autoApprove := ["tool"] } none
      = Except.ok (ApplyOutput.jsonDoc
          [("mcpServers", JVal.obj [("run", JVal.obj [("command", JVal.str "run")])])]) :=
  ⟨rfl, rfl, rfl⟩

/-- C5 (amended): field presence in the per-server fragments, characterized
per variant.  The claude-desktop and generic-JSON fragments include a field
iff it is non-empty/non-default except `autoApprove`, which is always
present (possibly empty); the windsurf/cursor fragment includes only
command/args/env/url when non-empty and never `disabled` or `autoApprove`;
the vscode fragment includes command/args/url when non-empty, always
includes `env` (possibly empty), and never `disabled` or `autoApprove`; and
the YAML/TOML generic fallbacks marshal the record itself, whose struct
carries only json tags that yaml.v3 and the TOML encoder ignore, so there
every field is always emitted even when empty/default. -/
theorem fragment_field_presence_amended (s : MCPServer) :
    (lookupKey "command" (claudeEntry s)
        = (if s.command ≠ "" then some (JVal.str s.command) else none))
  ∧ (lookupKey "args" (claudeEntry s)
        = (if s.args ≠ [] then some (JVal.arr (s.args.map JVal.str)) else none))
  ∧ (lookupKey "env" (claudeEntry s)
        = (if s.env ≠ [] then some (JVal.obj (s.env.map (fun p => (p.1, JVal.str p.2)))) else none))
  ∧ (lookupKey "url" (claudeEntry s)
        = (if s.url ≠ "" then some (JVal.str s.url) else none))
  ∧ (lookupKey "disabled" (claudeEntry s)
        = (if s.disabled then some (JVal.jbool s.disabled) else none))
  ∧ (lookupKey "autoApprove" (claudeEntry s) = some (JVal.arr (s.autoApprove.map JVal.str)))
  ∧ (lookupKey "command" (windsurfEntry s)
        = (if s.command ≠ "" then some (JVal.str s.command) else none))
  ∧ (lookupKey "args" (windsurfEntry s)
        = (if s.args ≠ [] then some (JVal.arr (s.args.map JVal.str)) else none))
  ∧ (lookupKey "env" (windsurfEntry s)
        = (if s.env ≠ [] then some (JVal.obj (s.env.map (fun p => (p.1, JVal.str p.2)))) else none))
  ∧ (lookupKey "url" (windsurfEntry s)
        = (if s.url ≠ "" then some (JVal.str s.url) else none))
  ∧ (lookupKey "disabled" (windsurfEntry s) = none)
  ∧ (lookupKey "autoApprove" (windsurfEntry s) = none)
  ∧ (lookupKey "command" (vscodeEntry s)
        = (if s.command ≠ "" then some (JVal.str s.command) else none))
  ∧ (lookupKey "args" (vscodeEntry s)
        = (if s.args ≠ [] then some (JVal.arr (s.args.map JVal.str)) else none))
  ∧ (lookupKey "env" (vscodeEntry s)
        = some (if s.env ≠ [] then JVal.obj (s.env.map (fun p => (p.1, JVal.str p.2)))
                else JVal.obj []))
  ∧ (lookupKey "url" (vscodeEntry s)
        = (if s.url ≠ "" then some (JVal.str s.url) else none))
  ∧ (lookupKey "disabled" (vscodeEntry s) = none)
  ∧ (lookupKey "autoApprove" (vscodeEntry s) = none)
  ∧ (lookupKey "command" (genericJsonEntry s)
        = (if s.command ≠ "" then some (JVal.str s.command) else none))
  ∧ (lookupKey "args" (genericJsonEntry s)
        = (if s.args ≠ [] then some (JVal.arr (s.args.map JVal.str)) else none))
  ∧ (lookupKey "env" (genericJsonEntry s)
        = (if s.env ≠ [] then some (JVal.obj (s.env.map (fun p => (p.1, JVal.str p.2)))) else none))
  ∧ (lookupKey "url" (genericJsonEntry s)
        = (if s.url ≠ "" then some (JVal.str s.url) else none))
  ∧ (lookupKey "disabled" (genericJsonEntry s)
        = (if s.disabled then some (JVal.jbool s.disabled) else none))
  ∧ (lookupKey "autoApprove" (genericJsonEntry s) = some (JVal.arr (s.autoApprove.map JVal.str)))
  ∧ (lookupKey "command" (yamlRecordFields s) = some (JVal.str s.command))
  ∧ (lookupKey "args" (yamlRecordFields s) = some (JVal.arr (s.args.map JVal.str)))
  ∧ (lookupKey "url" (yamlRecordFields s) = some (JVal.str s.url))
  ∧ (lookupKey "env" (yamlRecordFields s)
        = some (JVal.obj (s.env.map (fun p => (p.1, JVal.str p.2)))))
  ∧ (lookupKey "disabled" (yamlRecordFields s) = some (JVal.jbool s.disabled))
  ∧ (lookupKey "autoapprove" (yamlRecordFields s) = some (JVal.arr (s.autoApprove.map JVal.str)))
  ∧ (lookupKey "Command" (tomlRecordFields s) = some (JVal.str s.command))
  ∧ (lookupKey "Args" (tomlRecordFields s) = some (JVal.arr (s.args.map JVal.str)))
  ∧ (lookupKey "URL" (tomlRecordFields s) = some (JVal.str s.url))
  ∧ (lookupKey "Env" (tomlRecordFields s)
        = some (JVal.obj (s.env.map (fun p => (p.1, JVal.str p.2)))))
  ∧ (lookupKey "Disabled" (tomlRecordFields s) = some (JVal.jbool s.disabled))
  ∧ (lookupKey "AutoApprove" (tomlRecordFields s)
        = some (JVal.arr (s.autoApprove.map JVal.str))) := by
  refine ⟨?_, ?_, ?_, ?_, ?_, ?_, ?_, ?_, ?_, ?_, ?_, ?_, ?_, ?_, ?_, ?_, ?_, ?_, ?_, ?_,
    ?_, ?_, ?_, ?_, ?_, ?_, ?_, ?_, ?_, ?_, ?_, ?_, ?_, ?_, ?_, ?_⟩
  all_goals simp only [claudeEntry, windsurfEntry, vscodeEntry, genericJsonEntry,
    yamlRecordFields, tomlRecordFields, List.append_assoc, lookupKey_guard, lookupKey_guardD,
    lookupKey_guard_nil, lookupKey_guardD_nil]
  all_goals simp [lookupKey]

/-- C7: pruning a server-map node keeps exactly the identifiers that are both
present in the node and present in the canonical `ServerSet`, and the
fragment stored under each surviving identifier is unchanged — prune only
deletes keys, never adds or modifies entries. -/
theorem prune_node_intersection (cfg : MCPConfig) (servers : List (String × JVal)) :
    (∀ k : String, (lookupKey k (removeObsoleteServers cfg servers).1).isSome = true
        ↔ ((lookupKey k servers).isSome = true ∧ (lookupKey k cfg.mcpServers).isSome = true))
  ∧ (∀ k : String, (lookupKey k cfg.mcpServers).isSome = true →
        lookupKey k (removeObsoleteServers cfg servers).1 = lookupKey k servers) := by
  constructor
  · intro k
    induction servers with
    | nil => simp [removeObsoleteServers, lookupKey]
    | cons e rest ih =>
      obtain ⟨id, v⟩ := e
      by_cases hid : id = k
      · subst hid
        by_cases hin : (lookupKey id cfg.mcpServers).isSome = true
        · simp [removeObsoleteServers, lookupKey, hin]
        · simp [removeObsoleteServers, lookupKey, hin, ih]
      · by_cases hin : (lookupKey id cfg.mcpServers).isSome = true <;>
          simp [removeObsoleteServers, lookupKey, hid, hin, ih]
  · intro k hk
    induction servers with
    | nil => simp [removeObsoleteServers]
    | cons e rest ih =>
      obtain ⟨id, v⟩ := e
      by_cases hid : id = k
      · subst hid
        simp [removeObsoleteServers, lookupKey, hk]
      · by_cases hin : (lookupKey id cfg.mcpServers).isSome = true <;>
          simp [removeObsoleteServers, lookupKey, hid, hin, ih]

/-- Witness for the C7 theorem: the fragment surviving under a canonical
identifier is returned unchanged on a concrete two-entry node. -/
theorem prune_node_intersection_witness :
    lookupKey "A" (removeObsoleteServers
        ⟨[("A", { command := "a", args := [], url := "", env := [], disabled := false,
                  autoApprove := [] })]⟩
        [("A", JVal.obj [("command", JVal.str "a")]), ("B", JVal.obj [])]).1
      = lookupKey "A" [("A", JVal.obj [("command", JVal.str "a")]), ("B", JVal.obj [])] :=
  (prune_node_intersection
      ⟨[("A", { command := "a", args := [], url := "", env := [], disabled := false,
                autoApprove := [] })]⟩
      [("A", JVal.obj [("command", JVal.str "a")]), ("B", JVal.obj [])]).2 "A" rfl

theorem removeObsolete_changed_iff (cfg : MCPConfig) (servers : List (String × JVal)) :
    (removeObsoleteServers cfg servers).2 = true
      ↔ ∃ kv, kv ∈ servers ∧ lookupKey kv.1 cfg.mcpServers = none := by
  induction servers with
  | nil => simp [removeObsoleteServers]
  | cons e rest ih =>
    obtain ⟨id, v⟩ := e
    by_cases hin : (lookupKey id cfg.mcpServers).isSome = true
    · have hs : (removeObsoleteServers cfg ((id, v) :: rest)).2
          = (removeObsoleteServers cfg rest).2 := by
        simp [removeObsoleteServers, hin]
      rw [hs, ih]
      constructor
      · rintro ⟨kv, hm, hn⟩
        exact ⟨kv, List.mem_cons_of_mem _ hm, hn⟩
      · rintro ⟨kv, hm, hn⟩
        rcases List.mem_cons.mp hm with he | hm2
        · subst he
          rw [hn] at hin
          simp at hin
        · exact ⟨kv, hm2, hn⟩
    · have hs : (removeObsoleteServers cfg ((id, v) :: rest)).2 = true := by
        simp [removeObsoleteServers, hin]
      rw [hs]
      simp only [true_iff]
      refine ⟨(id, v), List.mem_cons_self _ _, ?_⟩
      simpa using Option.not_isSome_iff_eq_none.mp (by simpa using hin)

theorem pruneFlat_write_iff (cfg : MCPConfig) (doc : List (String × JVal)) :
    isWrite (pruneFlat cfg doc) = true
      ↔ ∃ node, getPath ["mcpServers"] doc = some node
          ∧ ∃ kv, kv ∈ node ∧ lookupKey kv.1 cfg.mcpServers = none := by
  rcases hm : lookupKey "mcpServers" doc with _ | val
  · simp only [pruneFlat, hm, getPath, isWrite]
    constructor
    · intro hfalse
      exact absurd hfalse (by simp)
    · rintro ⟨node, hnode, hobs⟩
      exact absurd hnode (by simp)
  · cases val with
    | obj entries =>
      simp only [pruneFlat, hm, getPath, isWrite]
      by_cases hch : (removeObsoleteServers cfg entries).2 = true
      · simp only [hch, if_true]
        constructor
        · intro hx
          exact ⟨entries, rfl, (removeObsolete_changed_iff cfg entries).mp hch⟩
        · intro hx
          trivial
      · simp only [hch, if_false]
        constructor
        · intro hfalse
          exact absurd hfalse (by simp)
        · rintro ⟨node, hnode, hobs⟩
          have hne := Option.some.inj hnode
          subst hne
          exact absurd ((removeObsolete_changed_iff cfg entries).mpr hobs) hch
    | str s =>
      simp only [pruneFlat, hm, getPath, isWrite]
      constructor
      · intro hfalse
        exact absurd hfalse (by simp)
      · rintro ⟨node, hnode, hobs⟩
        exact absurd hnode (by simp)
    | jbool b =>
      simp only [pruneFlat, hm, getPath, isWrite]
      constructor
      · intro hfalse
        exact absurd hfalse (by simp)
      · rintro ⟨node, hnode, hobs⟩
        exact absurd hnode (by simp)
    | num n =>
      simp only [pruneFlat, hm, getPath, isWrite]
      constructor
      · intro hfalse
        exact absurd hfalse (by simp)
      · rintro ⟨node, hnode, hobs⟩
        exact absurd hnode (by simp)
    | arr elems =>
      simp only [pruneFlat, hm, getPath, isWrite]
      constructor
      · intro hfalse
        exact absurd hfalse (by simp)
      · rintro ⟨node, hnode, hobs⟩
        exact absurd hnode (by simp)

theorem pruneNested_write_iff (cfg : MCPConfig) (doc : List (String × JVal)) :
    isWrite (pruneNested cfg doc) = true
      ↔ ∃ node, getPath ["mcp", "servers"] doc = some node
          ∧ ∃ kv, kv ∈ node ∧ lookupKey kv.1 cfg.mcpServers = none := by
  rcases hm : lookupKey "mcp" doc with _ | val
  · simp only [pruneNested, hm, getPath, isWrite]
    constructor
    · intro hfalse
      exact absurd hfalse (by simp)
    · rintro ⟨node, hnode, hobs⟩
      exact absurd hnode (by simp)
  · cases val with
    | obj mcpObj =>
      rcases hs : lookupKey "servers" mcpObj with _ | val2
      · simp only [pruneNested, hm, hs, getPath, isWrite]
        constructor
        · intro hfalse
          exact absurd hfalse (by simp)
        · rintro ⟨node, hnode, hobs⟩
          exact absurd hnode (by simp)
      · cases val2 with
        | obj servers =>
          simp only [pruneNested, hm, hs, getPath, isWrite]
          by_cases hch : (removeObsoleteServers cfg servers).2 = true
          · simp only [hch, if_true]
            constructor
            · intro hx
              exact ⟨servers, rfl, (removeObsolete_changed_iff cfg servers).mp hch⟩
            · intro hx
              trivial
          · simp only [hch, if_false]
            constructor
            · intro hfalse
              exact absurd hfalse (by simp)
            · rintro ⟨node, hnode, hobs⟩
              have hne := Option.some.inj hnode
              subst hne
              exact absurd ((removeObsolete_changed_iff cfg servers).mpr hobs) hch
        | str s2 =>
          simp only [pruneNested, hm, hs, getPath, isWrite]
          constructor
          · intro hfalse
            exact absurd hfalse (by simp)
          · rintro ⟨node, hnode, hobs⟩
            exact absurd hnode (by simp)
        | jbool b2 =>
          simp only [pruneNested, hm, hs, getPath, isWrite]
          constructor
          · intro hfalse
            exact absurd hfalse (by simp)
          · rintro ⟨node, hnode, hobs⟩
            exact absurd hnode (by simp)
        | num n2 =>
          simp only [pruneNested, hm, hs, getPath, isWrite]
          constructor
          · intro hfalse
            exact absurd hfalse (by simp)
          · rintro ⟨node, hnode, hobs⟩
            exact absurd hnode (by simp)
        | arr elems2 =>
          simp only [pruneNested, hm, hs, getPath, isWrite]
          constructor
          · intro hfalse
            exact absurd hfalse (by simp)
          · rintro ⟨node, hnode, hobs⟩
            exact absurd hnode (by simp)
    | str s =>
      simp only [pruneNested, hm, getPath, isWrite]
      constructor
      · intro hfalse
        exact absurd hfalse (by simp)
      · rintro ⟨node, hnode, hobs⟩
        exact absurd hnode (by simp)
    | jbool b =>
      simp only [pruneNested, hm, getPath, isWrite]
      constructor
      · intro hfalse
        exact absurd hfalse (by simp)
      · rintro ⟨node, hnode, hobs⟩
        exact absurd hnode (by simp)
    | num n =>
      simp only [pruneNested, hm, getPath, isWrite]
      constructor
      · intro hfalse
        exact absurd hfalse (by simp)
      · rintro ⟨node, hnode, hobs⟩
        exact absurd hnode (by simp)
    | arr elems =>
      simp only [pruneNested, hm, getPath, isWrite]
      constructor
      · intro hfalse
        exact absurd hfalse (by simp)
      · rintro ⟨node, hnode, hobs⟩
        exact absurd hnode (by simp)

/-- C8: on a parsed `.json` client document, prune writes the file back if
and only if the located server-map node exists and contains at least one
identifier absent from the canonical inventory; when no identifier is
obsolete (in particular when the node is absent) no write happens at all. -/
theorem prune_writes_iff_deletion (clientName : String) (cfg : MCPConfig)
    (doc : List (String × JVal)) :
    isWrite (removeClientServers clientName ".json" cfg (FileState.content (some doc))) = true
      ↔ ∃ node, getPath (pruneServerMapPath clientName) doc = some node
          ∧ ∃ kv, kv ∈ node ∧ lookupKey kv.1 cfg.mcpServers = none := by
  unfold removeClientServers pruneServerMapPath
  by_cases h1 : goContains clientName "claude-desktop" = true
  · simpa [h1] using pruneFlat_write_iff cfg doc
  · by_cases h2 : goContains clientName "windsurf" = true
    · simpa [h1, h2] using pruneFlat_write_iff cfg doc
    · by_cases h3 : (goContains clientName "vscode" || goContains clientName "cursor") = true
      · simpa [h1, h2, h3] using pruneNested_write_iff cfg doc
      · simpa [h1, h2, h3] using pruneFlat_write_iff cfg doc

/-- Witness for the C8 theorem: a concrete claude-desktop document with one
obsolete identifier is written back, exhibited through the iff. -/
theorem prune_writes_iff_deletion_witness :
    isWrite (removeClientServers "claude-desktop" ".json" ⟨[]⟩
        (FileState.content (some [("mcpServers", JVal.obj [("old", JVal.obj [])])]))) = true :=
  (prune_writes_iff_deletion "claude-desktop" ⟨[]⟩
      [("mcpServers", JVal.obj [("old", JVal.obj [])])]).mpr
    ⟨[("old", JVal.obj [])], rfl, ("old", JVal.obj []), List.mem_cons_self _ _, rfl⟩

/-- C6: applying with any JSON-producing variant over an existing parsed
document modifies only the variant's server-map path: every top-level key
other than the variant's own root key (`mcpServers`, or `mcp` for vscode)
keeps exactly its old value in the written output, and for vscode every key
inside an existing `mcp` object other than `servers` (such as the `inputs`
sibling) is preserved as well. -/
theorem apply_preserves_unowned_keys (clientName fmtExt : String) (cfg : MCPConfig)
    (s : MCPServer) (d out : List (String × JVal)) (v : Variant)
    (hv : selectVariant clientName fmtExt = Except.ok v)
    (h : translateAndApply clientName fmtExt cfg s (some d)
          = Except.ok (ApplyOutput.jsonDoc out)) :
    (∀ k : String, k ≠ ownedRootKey v → lookupKey k out = lookupKey k d)
  ∧ (v = Variant.vscode →
      ∀ mcpOld, lookupKey "mcp" d = some (JVal.obj mcpOld) →
        ∃ mcpNew, lookupKey "mcp" out = some (JVal.obj mcpNew)
          ∧ ∀ k2 : String, k2 ≠ "servers" → lookupKey k2 mcpNew = lookupKey k2 mcpOld) := by
  simp only [translateAndApply, translateAndApplyOrd, hv] at h
  cases v with
  | claudeDesktop =>
    simp only [Except.ok.injEq, ApplyOutput.jsonDoc.injEq] at h
    subst h
    exact ⟨fun k hk => lookupKey_setKey_ne k "mcpServers" _ d hk, fun hveq => by cases hveq⟩
  | windsurfCursor =>
    simp only [Except.ok.injEq, ApplyOutput.jsonDoc.injEq] at h
    subst h
    refine ⟨fun k hk => ?_, fun hveq => by cases hveq⟩
    rw [lookupKey_setKey_ne k "mcpServers" _ _ hk]
    by_cases hn : (lookupKey "mcpServers" d).isNone = true
    · simp only [hn, if_true]
      exact lookupKey_setKey_ne k "mcpServers" _ d hk
    · simp [hn]
  | vscode =>
    simp only [Except.ok.injEq, ApplyOutput.jsonDoc.injEq] at h
    subst h
    constructor
    · exact fun k hk => lookupKey_setKey_ne k "mcp" _ d hk
    · intro hveq mcpOld hOld
      simp only [hOld]
      exact ⟨_, lookupKey_setKey_self "mcp" _ d,
        fun k2 hk2 => lookupKey_setKey_ne k2 "servers" _ mcpOld hk2⟩
  | genericJson =>
    simp only [Except.ok.injEq, ApplyOutput.jsonDoc.injEq] at h
    subst h
    exact ⟨fun k hk => lookupKey_setKey_ne k "mcpServers" _ d hk, fun hveq => by cases hveq⟩
  | genericYaml => simp at h
  | genericToml => simp at h

/-- Witness for the C6 theorem: an unrelated top-level key `"foo": "bar"`
survives a concrete claude-desktop apply unchanged. -/
theorem apply_preserves_unowned_keys_witness :
    lookupKey "foo"
        [("foo", JVal.str "bar"),
         ("mcpServers", JVal.obj
           [("run", JVal.obj [("command", JVal.str "run"), ("autoApprove", JVal.arr [])])])]
      = lookupKey "foo" [("foo", JVal.str "bar")] :=
  (apply_preserves_unowned_keys "claude-desktop" ".json" ⟨[]⟩
    { command := "run", args := [], url := "", env := [], disabled := false,
      autoApprove := [] }
    [("foo", JVal.str "bar")]
    [("foo", JVal.str "bar"),
     ("mcpServers", JVal.obj
       [("run", JVal.obj [("command", JVal.str "run"), ("autoApprove", JVal.arr [])])])]
    Variant.claudeDesktop rfl rfl).1 "foo" (by decide)


theorem find?_eq_of_perm_of_unique {α : Type} (p : α → Bool) (l1 l2 : List α)
    (hperm : l1.Perm l2)
    (huniq : ∀ a, a ∈ l1 → ∀ b, b ∈ l1 → p a = true → p b = true → a = b) :
    l1.find? p = l2.find? p := by
  rcases h1 : l1.find? p with _ | a <;> rcases h2 : l2.find? p with _ | b
  · rfl
  · exact absurd (List.find?_some h2)
      (List.find?_eq_none.mp h1 b (hperm.mem_iff.mpr (List.mem_of_find?_eq_some h2)))
  · exact absurd (List.find?_some h1)
      (List.find?_eq_none.mp h2 a (hperm.mem_iff.mp (List.mem_of_find?_eq_some h1)))
  · rw [huniq a (List.mem_of_find?_eq_some h1) b
      (hperm.mem_iff.mpr (List.mem_of_find?_eq_some h2))
      (List.find?_some h1) (List.find?_some h2)]

theorem applyOrd_rebase (scan1 scan2 : List (String × MCPServer)) (clientName fmtExt : String)
    (s : MCPServer) (existing : Option (List (String × JVal))) (out : ApplyOutput)
    (hid : resolveServerIDIn scan2 s = resolveServerIDIn scan1 s)
    (h : translateAndApplyOrd scan1 clientName fmtExt s existing = Except.ok out) :
    translateAndApplyOrd scan2 clientName fmtExt s (reparse out) = Except.ok out := by
  rcases hv : selectVariant clientName fmtExt with e | v
  · simp only [translateAndApplyOrd, hv] at h
    exact absurd h (by simp)
  · simp only [translateAndApplyOrd, hv, hid] at h ⊢
    cases v with
    | claudeDesktop =>
      simp only [Except.ok.injEq] at h
      subst h
      simp [reparse, lookupKey_setKey_self, setKey_setKey_self]
    | windsurfCursor =>
      simp only [Except.ok.injEq] at h
      subst h
      simp [reparse, lookupKey_setKey_self, setKey_setKey_self]
    | vscode =>
      simp only [Except.ok.injEq] at h
      subst h
      simp [reparse, lookupKey_setKey_self, setKey_setKey_self]
    | genericJson =>
      simp only [Except.ok.injEq] at h
      subst h
      simp [reparse, lookupKey_setKey_self, setKey_setKey_self]
    | genericYaml =>
      simp only [Except.ok.injEq] at h
      subst h
      simp [reparse]
    | genericToml =>
      simp only [Except.ok.injEq] at h
      subst h
      simp [reparse]

/-- C9 (counterexample): the identifier-resolution loop is a `range` over a
Go map with a `break` at the first match, and Go randomizes map iteration
order.  With two canonical entries holding field-identical records, both
scan orders below are legal iterations of the same canonical map (the
second is a permutation of the first); the first apply resolves "a" and
writes a one-entry server map, the second — rebased on the first call's
output — may resolve "b" and write a two-entry map, so the second write is
not byte-identical. -/
theorem apply_idempotent_counterexample :
    ([("b", { command := "run", args := [], url := "", env := [], disabled := false,
              autoApprove := [] }),
      ("a", { command := "run", args := [], url := "", env := [], disabled := false,
              autoApprove := [] })] : List (String × MCPServer)).Perm
      (⟨[("a", { command := "run", args := [], url := "", env := [], disabled := false,
                 autoApprove := [] }),
         ("b", { command := "run", args := [], url := "", env := [], disabled := false,
                 autoApprove := [] })]⟩ : MCPConfig).mcpServers
  ∧ translateAndApplyOrd
      (⟨[("a", { command := "run", args := [], url := "", env := [], disabled := false,
                 autoApprove := [] }),
         ("b", { command := "run", args := [], url := "", env := [], disabled := false,
                 autoApprove := [] })]⟩ : MCPConfig).mcpServers
      "claude-desktop" ".json"
      { command := "run", args := [], url := "", env := [], disabled := false,
        autoApprove := [] } none
      = Except.ok (ApplyOutput.jsonDoc
          [("mcpServers", JVal.obj
            [("a", JVal.obj [("command", JVal.str "run"), ("autoApprove", JVal.arr [])])])])
  ∧ translateAndApplyOrd
      [("b", { command := "run", args := [], url := "", env := [], disabled := false,
               autoApprove := [] }),
       ("a", { command := "run", args := [], url := "", env := [], disabled := false,
               autoApprove := [] })]
      "claude-desktop" ".json"
      { command := "run", args := [], url := "", env := [], disabled := false,
        autoApprove := [] }
      (reparse (ApplyOutput.jsonDoc
        [("mcpServers", JVal.obj
          [("a", JVal.obj [("command", JVal.str "run"), ("autoApprove", JVal.arr [])])])]))
      = Except.ok (ApplyOutput.jsonDoc
          [("mcpServers", JVal.obj
            [("a", JVal.obj [("command", JVal.str "run"), ("autoApprove", JVal.arr [])]),
             ("b", JVal.obj [("command", JVal.str "run"), ("autoApprove", JVal.arr [])])])])
  ∧ serverMapSize
      [("mcpServers", JVal.obj
        [("a", JVal.obj [("command", JVal.str "run"), ("autoApprove", JVal.arr [])])])] = 1
  ∧ serverMapSize
      [("mcpServers", JVal.obj
        [("a", JVal.obj [("command", JVal.str "run"), ("autoApprove", JVal.arr [])]),
         ("b", JVal.obj [("command", JVal.str "run"), ("autoApprove", JVal.arr [])])])] = 2
  ∧ [("mcpServers", JVal.obj
       [("a", JVal.obj [("command", JVal.str "run"), ("autoApprove", JVal.arr [])])])]
      ≠ [("mcpServers", JVal.obj
           [("a", JVal.obj [("command", JVal.str "run"), ("autoApprove", JVal.arr [])]),
            ("b", JVal.obj [("command", JVal.str "run"), ("autoApprove", JVal.arr [])])])] :=
  ⟨List.Perm.swap
      (("a", { command := "run", args := [], url := "", env := [], disabled := false,
               autoApprove := [] }) : String × MCPServer)
      (("b", { command := "run", args := [], url := "", env := [], disabled := false,
               autoApprove := [] }) : String × MCPServer) [],
   rfl, rfl, rfl, rfl,
   fun hEq => absurd (congrArg serverMapSize hEq) (by decide)⟩

/-- C9 (amended): apply is idempotent whenever identifier resolution is
unambiguous: if at most one canonical entry four-field-matches the record,
then for any two map iteration orders (each a permutation of the canonical
entries) the second call, rebased on the first call's output, produces the
identical output — hence byte-identical file content, since the written
bytes are a pure function of the output (`json.MarshalIndent` sorts keys,
and the YAML/TOML fallback ignores the merge base).  With several
field-identical entries the two calls may resolve different identifiers, as
the counterexample shows. -/
theorem apply_idempotent_amended (o1 o2 : List (String × MCPServer))
    (clientName fmtExt : String) (cfg : MCPConfig) (s : MCPServer)
    (existing : Option (List (String × JVal))) (out : ApplyOutput)
    (hp1 : o1.Perm cfg.mcpServers) (hp2 : o2.Perm cfg.mcpServers)
    (huniq : ∀ kv1, kv1 ∈ cfg.mcpServers → ∀ kv2, kv2 ∈ cfg.mcpServers →
        serverMatches kv1.2 s = true → serverMatches kv2.2 s = true → kv1 = kv2)
    (h : translateAndApplyOrd o1 clientName fmtExt s existing = Except.ok out) :
    translateAndApplyOrd o2 clientName fmtExt s (reparse out) = Except.ok out := by
  have hfind : o2.find? (fun kv => serverMatches kv.2 s)
      = o1.find? (fun kv => serverMatches kv.2 s) :=
    find?_eq_of_perm_of_unique (fun kv => serverMatches kv.2 s) o2 o1
      (hp2.trans hp1.symm)
      (fun a ha b hb hpa hpb =>
        huniq a (hp2.mem_iff.mp ha) b (hp2.mem_iff.mp hb) hpa hpb)
  have hid : resolveServerIDIn o2 s = resolveServerIDIn o1 s := by
    simp only [resolveServerIDIn, hfind]
  exact applyOrd_rebase o1 o2 clientName fmtExt s existing out hid h

/-- Witness for the C9 amended theorem: a singleton canonical map (trivially
unambiguous) with the identity iteration order, re-applied on its own
output. -/
theorem apply_idempotent_amended_witness :
    translateAndApplyOrd
      [("x", { command := "run", args := [], url := "", env := [], disabled := false,
               autoApprove := [] })]
      "claude-desktop" ".json"
      { command := "run", args := [], url := "", env := [], disabled := false,
        autoApprove := [] }
      (reparse (ApplyOutput.jsonDoc
        [("mcpServers", JVal.obj
          [("x", JVal.obj [("command", JVal.str "run"), ("autoApprove", JVal.arr [])])])]))
      = Except.ok (ApplyOutput.jsonDoc
          [("mcpServers", JVal.obj
            [("x", JVal.obj [("command", JVal.str "run"), ("autoApprove", JVal.arr [])])])]) :=
  apply_idempotent_amended
    [("x", { command := "run", args := [], url := "", env := [], disabled := false,
             autoApprove := [] })]
    [("x", { command := "run", args := [], url := "", env := [], disabled := false,
             autoApprove := [] })]
    "claude-desktop" ".json"
    ⟨[("x", { command := "run", args := [], url := "", env := [], disabled := false,
              autoApprove := [] })]⟩
    { command := "run", args := [], url := "", env := [], disabled := false,
      autoApprove := [] }
    none
    (ApplyOutput.jsonDoc
      [("mcpServers", JVal.obj
        [("x", JVal.obj [("command", JVal.str "run"), ("autoApprove", JVal.arr [])])])])
    (List.Perm.refl _) (List.Perm.refl _)
    (fun kv1 h1 kv2 h2 hm1 hm2 => by
      rw [List.mem_singleton.mp h1, List.mem_singleton.mp h2])
    rfl
